import Mathlib

/-!
Verification of the `zipfs` package: a ZIP-archive-backed virtual file
system with an HTTP serving handler.

The definitions below are a shallow embedding of the Go source
(`zipfs.go`, `check_etag.go`, `buf_pool.go`).  Pure functions are
translated to Lean functions; the mutable `fileReader` / `FileSystem` /
index-build state is threaded explicitly.  Machine integers are `Nat`
with explicit `% 2 ^ w` masking where the Go code narrows a value.
Loops whose termination is by a strictly decreasing counter are written
with an explicit fuel argument (structural recursion) so that every
definition evaluates by kernel reduction; theorems are stated with a
fuel bound that the corresponding Go loop always satisfies.
-/

namespace Zipfs

/-! ## String and path utilities (Go `strings` / `path` packages) -/

/-- Byte-wise (code-point-wise) lexicographic `≤` on character lists;
models the order induced by Go `strings.Compare`. -/
def charListLe : List Char → List Char → Bool
  | [], _ => true
  | _ :: _, [] => false
  | a :: as, b :: bs =>
    if a.toNat < b.toNat then true
    else if b.toNat < a.toNat then false
    else charListLe as bs

/-- Models Go `strings.HasPrefix` on character lists. -/
def listStartsWith : List Char → List Char → Bool
  | [], _ => true
  | _ :: _, [] => false
  | a :: as, b :: bs => a == b && listStartsWith as bs

/-- Substring occurrence test on character lists. -/
def listHasSub (needle : List Char) : List Char → Bool
  | [] => listStartsWith needle []
  | c :: rest => listStartsWith needle (c :: rest) || listHasSub needle rest

/-- Models Go `strings.Contains s sub`. -/
def strContains (s sub : String) : Bool :=
  listHasSub sub.data s.data

/-- Models Go `strings.TrimRight name "/"`: removes all trailing slashes. -/
def trimRightSlashes (cs : List Char) : List Char :=
  (cs.reverse.dropWhile (fun c => c = '/')).reverse

/-- `trimRightSlashes` on strings, as used by `fileInfoMap.FindOrCreate`. -/
def trimSlashStr (s : String) : String :=
  String.mk (trimRightSlashes s.data)

/-- Models Go `strings.TrimLeft name "/"`: removes all leading slashes. -/
def trimLeftSlashes (s : String) : String :=
  String.mk (s.data.dropWhile (fun c => c = '/'))

/-- Lowercase hexadecimal digit for `n < 16`, as produced by Go `%x`. -/
def hexDigitChar (n : Nat) : Char :=
  if n < 10 then Char.ofNat (48 + n) else Char.ofNat (87 + n)

/-- Accumulates the hex digits of `n` most-significant first.  The fuel
argument bounds the number of divisions by 16; `fuel = n` always
suffices because `n / 16 < n` for `n > 0`. -/
def hexCore : Nat → Nat → List Char → List Char
  | 0, _, acc => acc
  | fuel + 1, n, acc =>
    if n = 0 then acc else hexCore fuel (n / 16) (hexDigitChar (n % 16) :: acc)

/-- Models Go `fmt.Sprintf("%x", n)` for an unsigned value: minimal
lowercase hex digits, `"0"` for zero. -/
def goHex (n : Nat) : String :=
  if n = 0 then "0" else String.mk (hexCore n n [])

/-! ### Go `path.Clean`, `path.Base`, `path.Dir` -/

/-- The `..`-backtracking inner loop of `path.Clean`: starting from
write index `w`, decrement while `w > dotdot` and `out[w] ≠ '/'`. -/
def cleanBacktrack (out : List Char) (dotdot : Nat) : Nat → Nat
  | 0 => 0
  | w + 1 =>
    if dotdot < w + 1 ∧ out.getD (w + 1) ' ' ≠ '/' then cleanBacktrack out dotdot w
    else w + 1

/-- Main loop of Go `path.Clean`, processing the remaining input with an
output accumulator `out` and the `dotdot` barrier index.  Each step
consumes at least one input character, so fuel `= input length` is
always enough. -/
def cleanLoop (rooted : Bool) : Nat → List Char → List Char → Nat → List Char
  | 0, _, out, _ => out
  | _ + 1, [], out, _ => out
  | fuel + 1, c :: rest, out, dotdot =>
    if c = '/' then
      cleanLoop rooted fuel rest out dotdot
    else if c = '.' ∧ (rest = [] ∨ rest.head? = some '/') then
      cleanLoop rooted fuel rest out dotdot
    else if c = '.' ∧ rest.head? = some '.' ∧
        (rest.tail = [] ∨ rest.tail.head? = some '/') then
      if dotdot < out.length then
        let w := cleanBacktrack out dotdot (out.length - 1)
        cleanLoop rooted fuel rest.tail (out.take w) dotdot
      else if rooted = false then
        let out1 := if 0 < out.length then out ++ ['/'] else out
        let out2 := out1 ++ ['.', '.']
        cleanLoop rooted fuel rest.tail out2 out2.length
      else
        cleanLoop rooted fuel rest.tail out dotdot
    else
      let out1 :=
        if (rooted = true ∧ out.length ≠ 1) ∨ (rooted = false ∧ out.length ≠ 0)
        then out ++ ['/'] else out
      let seg := (c :: rest).takeWhile (fun x => x ≠ '/')
      let rest1 := (c :: rest).dropWhile (fun x => x ≠ '/')
      cleanLoop rooted fuel rest1 (out1 ++ seg) dotdot

/-- Models Go `path.Clean`. -/
def pathClean (p : String) : String :=
  if p = "" then "."
  else
    let cs := p.data
    let rooted := cs.head? = some '/'
    let init : List Char × Nat × List Char :=
      if cs.head? = some '/' then (['/'], 1, cs.tail) else ([], 0, cs)
    let out := cleanLoop rooted (init.2.2.length + 1) init.2.2 init.1 init.2.1
    if out.length = 0 then "." else String.mk out

/-- Models Go `path.Base`. -/
def pathBase (p : String) : String :=
  if p = "" then "."
  else
    let cs := trimRightSlashes p.data
    let base := (cs.reverse.takeWhile (fun c => c ≠ '/')).reverse
    if base = [] then "/" else String.mk base

/-- Models Go `path.Dir`: everything up to and including the final
slash, cleaned; `"."` when there is no slash. -/
def pathDir (p : String) : String :=
  match p.data.reverse.findIdx? (fun c => c = '/') with
  | none => "."
  | some i => pathClean (String.mk (p.data.take (p.data.length - i)))

/-! ## Archive entries (`archive/zip` surface used by the package) -/

/-- The fields of `zip.File` that the package reads.  `crc32` is a
`uint32` field and `compressedSize` / `uncompressedSize` are `uint64`
fields in Go; the width shows up as explicit masking at use sites.
`content` is the decompressed payload delivered by `f.Open()`, and
`dataOffset` the byte offset of the raw compressed payload inside the
archive as returned by `f.DataOffset()`. -/
structure ZipEntry where
  name : String
  crc32 : Nat
  compressedSize : Nat
  uncompressedSize : Nat
  method : Nat
  dataOffset : Nat
  content : List Nat
  modtime : Nat
deriving DecidableEq, Repr

/-- Go `zip.Store`. -/
def zipStore : Nat := 0

/-- Go `zip.Deflate`. -/
def zipDeflate : Nat := 8

/-- Embeds `calcEtag` (zipfs.go:815-820):
`etag := uint64(f.CRC32) ^ (uint64(f.CompressedSize64&0xffffffff) << 32)`
rendered as `fmt.Sprintf("\x22%x\x22", etag)`.  The `% 2 ^ 32` on the
CRC expresses the `uint32` width of the `CRC32` field. -/
def calcEtag (f : ZipEntry) : String :=
  let etag := Nat.xor (f.crc32 % 2 ^ 32) ((f.compressedSize % 2 ^ 32) * 2 ^ 32)
  "\x22" ++ goHex etag ++ "\x22"

/-! ## Errors (zipfs.go:312-317 and `os.PathError` wrapping) -/

/-- The error values used by the package: `errFileClosed`,
`errNotDirectory`, `errDirectory`, and `os.ErrNotExist`, plus the
invalid-seek error an `os.File` returns for a negative position. -/
inductive ErrKind
  | fileClosed
  | notDirectory
  | isDirectory
  | notExist
  | invalidSeek
deriving DecidableEq, Repr

/-- A Go error as surfaced by the file-system operations: either the
sentinel `io.EOF` (returned unwrapped by `Readdir`) or an
`os.PathError` with operation, path, and cause. -/
inductive GoErr
  | eof
  | pathError (op path : String) (kind : ErrKind)
deriving DecidableEq, Repr

/-! ## The `fileReader` handle (zipfs.go:537-643)

The handle's mutable fields are threaded explicitly:
`streamPos = none` models `f.reader == nil` (streaming reader not yet
opened, or closed by a seek); `filePos = none` models `f.file == nil`
(no temp-file materialization on this handle yet); `readdirState = none`
models `f.readdir == nil`.  The fields `children` and `isDir` are the
relevant parts of the handle's `fileInfo`; `α` is the file-info payload
type returned by `Stat` and `Readdir`. -/

variable {α : Type}

structure FileReader (α : Type) where
  name : String
  info : α
  children : List α
  isDir : Bool
  closed : Bool
  streamPos : Option Nat
  filePos : Option Nat
  readdirState : Option (List α)
deriving Repr

/-- A freshly opened handle, as produced by `fileInfo.openReader`
(zipfs.go:500-505): nothing opened, nothing materialized. -/
def openReader (name : String) (info : α) (children : List α) (isDir : Bool) :
    FileReader α :=
  { name := name, info := info, children := children, isDir := isDir,
    closed := false, streamPos := none, filePos := none, readdirState := none }

/-- Embeds `fileReader.Read` (zipfs.go:565-579) for a caller buffer of
`n` bytes.  `content` is the entry's decompressed payload: both the
temp file (written by `createTempFile`, zipfs.go:839-865) and the
streaming reader (`zipFile.Open()`) deliver exactly this byte sequence.
A read returns the next `min n remaining` bytes and advances the active
position. -/
def frRead (content : List Nat) (f : FileReader α) (n : Nat) :
    Except GoErr (List Nat × FileReader α) :=
  if f.closed then .error (.pathError "Read" f.name .fileClosed)
  else
    match f.filePos with
    | some p =>
      let chunk := (content.drop p).take n
      .ok (chunk, { f with filePos := some (p + chunk.length) })
    | none =>
      let p := f.streamPos.getD 0
      let chunk := (content.drop p).take n
      .ok (chunk, { f with streamPos := some (p + chunk.length) })

/-- Embeds `fileReader.Seek` (zipfs.go:581-602).  The streaming reader
is closed; if no temp file is open on this handle, one is opened that
holds the full decompressed `content` positioned at offset 0
(`fileInfo.openFile`, zipfs.go:507-523, backed by `createTempFile`);
then `os.File.Seek` resolves the offset against the chosen origin. -/
def frSeek (content : List Nat) (f : FileReader α) (offset : Int) (whence : Nat) :
    Except GoErr (Int × FileReader α) :=
  if f.closed then .error (.pathError "Seek" f.name .fileClosed)
  else
    let f1 := { f with streamPos := none }
    let cur : Nat := match f1.filePos with | some p => p | none => 0
    let base : Int :=
      if whence = 0 then 0
      else if whence = 1 then (cur : Int)
      else (content.length : Int)
    let newPos := base + offset
    if newPos < 0 then .error (.pathError "Seek" f.name .invalidSeek)
    else .ok (newPos, { f1 with filePos := some newPos.toNat })

/-- Embeds `fileReader.Close` (zipfs.go:546-563): releases the reader
and/or the temp-file descriptor (their `Close` errors are nil in this
model) and marks the handle closed. -/
def frClose (f : FileReader α) : Except GoErr Unit × FileReader α :=
  (.ok (), { f with closed := true })

/-- Embeds `fileReader.Stat` (zipfs.go:633-635): returns the handle's
file info with a nil error, with no check of the `closed` flag. -/
def frStat (f : FileReader α) : Except GoErr α :=
  .ok f.info

/-- Embeds `fileInfo.readdir` (zipfs.go:525-535): the node's child list
for directories, `errNotDirectory` otherwise. -/
def fiReaddir (f : FileReader α) : Except ErrKind (List α) :=
  if f.isDir then .ok f.children else .error .notDirectory

/-- The slicing step shared by the `count > 0` branches of
`fileReader.Readdir` (zipfs.go:615-622): with `l` the not-yet-returned
children, return `count` of them when at least `count` remain, else the
final partial batch together with `io.EOF`, clearing the state. -/
def frReaddirStep (f : FileReader α) (l : List α) (count : Int) :
    List α × Option GoErr × FileReader α :=
  if count.toNat ≤ l.length then
    (l.take count.toNat, none, { f with readdirState := some (l.drop count.toNat) })
  else
    (l, some .eof, { f with readdirState := none })

/-- Embeds `fileReader.Readdir` (zipfs.go:604-631). -/
def frReaddir (f : FileReader α) (count : Int) :
    List α × Option GoErr × FileReader α :=
  if 0 < count then
    match f.readdirState with
    | some l => frReaddirStep f l count
    | none =>
      match fiReaddir f with
      | .error e => ([], some (.pathError "Readdir" f.name e), f)
      | .ok l => frReaddirStep f l count
  else
    match fiReaddir f with
    | .error e => ([], some (.pathError "Readdir" f.name e), f)
    | .ok l => (l, none, f)

/-- Repeated `Readdir` calls with a fixed count, collecting the batches
until a call reports an error (for a directory: `io.EOF` on the
exhausting call).  Fuel bounds the number of calls; `children.length + 1`
always suffices for a positive count. -/
def runReaddir (count : Int) : Nat → FileReader α → List (List α) × Option GoErr
  | 0, _ => ([], none)
  | fuel + 1, f =>
    match frReaddir f count with
    | (batch, some e, _) => ([batch], some e)
    | (batch, none, f') =>
      let rest := runReaddir count fuel f'
      (batch :: rest.1, rest.2)

/-- Reading a handle to the end of its content: repeated `Read` calls
with an `n`-byte buffer until a read returns no bytes.  Fuel bounds the
number of calls; `content.length + 1` always suffices for `n > 0`. -/
def readToEnd (content : List Nat) (n : Nat) :
    Nat → FileReader α → Except GoErr (List Nat × FileReader α)
  | 0, f => .ok ([], f)
  | fuel + 1, f =>
    match frRead content f n with
    | .error e => .error e
    | .ok (chunk, f') =>
      if chunk.isEmpty then .ok ([], f')
      else
        match readToEnd content n fuel f' with
        | .error e => .error e
        | .ok (rest, f'') => .ok (chunk ++ rest, f'')

/-- The position the next `Read` serves from: the temp file's cursor
when the handle is file-backed, else the streaming position (0 when the
streaming reader has not been opened yet). -/
def posOf (f : FileReader α) : Nat :=
  match f.filePos with
  | some p => p
  | none => f.streamPos.getD 0

/-- The handle with its active position advanced by `k` bytes — the
state change a successful `Read` of `k` bytes performs. -/
def advanceReader (f : FileReader α) (k : Nat) : FileReader α :=
  match f.filePos with
  | some p => { f with filePos := some (p + k) }
  | none => { f with streamPos := some (f.streamPos.getD 0 + k) }

/-- The round-trip of the spec's testable property: read the handle to
the end, `Seek(0, 0)`, read to the end again; returns both byte
sequences. -/
def readSeekRead (content : List Nat) (n : Nat) (f0 : FileReader α) :
    Except GoErr (List Nat × List Nat) :=
  match readToEnd content n (content.length + 1) f0 with
  | .error e => .error e
  | .ok (r1, f1) =>
    match frSeek content f1 0 0 with
    | .error e => .error e
    | .ok (_, f2) =>
      match readToEnd content n (content.length + 1) f2 with
      | .error e => .error e
      | .ok (r2, _) => .ok (r1, r2)

/-! ## Child sorting at index-build time (zipfs.go:392-396, 401-417) -/

/-- A directory child as far as ordering is concerned: the node's full
`name`; `fileInfo.Name()` is `path.Base` of it (zipfs.go:459-461). -/
structure DirChild where
  name : String
deriving DecidableEq, Repr

/-- The order used by `fileInfoList.Less` (zipfs.go:407-411):
`strings.Compare(Name(i), Name(j)) < 0`, as a non-strict `≤`. -/
def childLe (a b : DirChild) : Bool :=
  charListLe (pathBase a.name).data (pathBase b.name).data

/-- Embeds the `sort.Sort(fi.fileInfos)` call in `New`
(zipfs.go:392-396).  Go's sort guarantees only that the result is a
permutation ordered by `Less`; `insertionSort` is the executable
representative of such a sort. -/
def sortFileInfos (l : List DirChild) : List DirChild :=
  List.insertionSort (fun a b => childLe a b = true) l

/-- The 64-bit ETag value according to the specification's words:
"(CRC32) XOR ((compressed size masked to its low 32 bits) shifted left
by 32 bits)". -/
def etagSpecValue (f : ZipEntry) : Nat :=
  Nat.xor f.crc32 ((f.compressedSize % 2 ^ 32) * 2 ^ 32)

/-- The ETag string according to the specification's words: a
double-quoted lowercase hexadecimal rendering of `etagSpecValue`. -/
def etagSpecString (f : ZipEntry) : String :=
  "\x22" ++ goHex (etagSpecValue f) ++ "\x22"

/-! ## HTTP serving (zipfs.go:645-869, check_etag.go) -/

/-- The request fields the handler reads: the method, the URL path, and
the four honored headers. -/
structure Request where
  method : String
  path : String
  acceptEncoding : String
  ifNoneMatch : String
  ifRange : String
  range : String
deriving DecidableEq, Repr

/-- The response state the handler mutates: status code, the emitted
headers, and the body bytes written so far.  `none` models an absent
header. -/
structure Response where
  status : Nat
  etag : Option String
  contentType : Option String
  contentEncoding : Option String
  contentLength : Option String
  body : List Nat
deriving DecidableEq, Repr

/-- A fresh `ResponseWriter`: implicit status 200, no headers, no body. -/
def initResponse : Response :=
  { status := 200, etag := none, contentType := none, contentEncoding := none,
    contentLength := none, body := [] }

/-- Models the Go standard library's builtin `mime.TypeByExtension`
table (an external collaborator of this package); `""` when unknown. -/
def mimeTypeByExtension (ext : String) : String :=
  if ext = ".css" then "text/css; charset=utf-8"
  else if ext = ".gif" then "image/gif"
  else if ext = ".htm" ∨ ext = ".html" then "text/html; charset=utf-8"
  else if ext = ".jpeg" ∨ ext = ".jpg" then "image/jpeg"
  else if ext = ".js" ∨ ext = ".mjs" then "text/javascript; charset=utf-8"
  else if ext = ".json" then "application/json"
  else if ext = ".pdf" then "application/pdf"
  else if ext = ".png" then "image/png"
  else if ext = ".svg" then "image/svg+xml"
  else if ext = ".wasm" then "application/wasm"
  else if ext = ".webp" then "image/webp"
  else if ext = ".xml" then "text/xml; charset=utf-8"
  else ""

/-- Models Go `path/filepath.Ext`: the suffix from the final dot of the
final path element, `""` when there is none. -/
def fileExt (p : String) : String :=
  let rev := p.data.reverse
  let lastElem := rev.takeWhile (fun c => c ≠ '/')
  match lastElem.findIdx? (fun c => c = '.') with
  | none => ""
  | some i => String.mk ((lastElem.take (i + 1)).reverse)

/-- Embeds `setContentType` (zipfs.go:796-813): when no Content-Type is
present, look the type up by extension, defaulting to
`application/octet-stream`; an already-present value is kept. -/
def setContentType (w : Response) (filename : String) : Response :=
  match w.contentType with
  | none =>
    let ctype := mimeTypeByExtension (fileExt (pathBase filename))
    let ctype := if ctype = "" then "application/octet-stream" else ctype
    { w with contentType := some ctype }
  | some _ => w

/-- Embeds `internalServerError` / `http.Error` (zipfs.go:867-869):
status 500 with a plain-text error description (the description text
itself is not modelled). -/
def internalServerError (w : Response) : Response :=
  { w with status := 500, contentType := some "text/plain; charset=utf-8" }

/-- Embeds `http.NotFound`: status 404 with a plain-text message (the
message text itself is not modelled). -/
def notFound (w : Response) : Response :=
  { w with status := 404, contentType := some "text/plain; charset=utf-8" }

/-- Embeds `serveIdentity` (zipfs.go:714-732): open the decompressing
reader, set Content-Type, delete Content-Encoding, set Content-Length
to the uncompressed size, and for non-HEAD requests copy exactly
`UncompressedSize64` bytes (`io.CopyN`) of the decompressed content. -/
def serveIdentity (r : Request) (f : ZipEntry) (w : Response) : Response :=
  let w := setContentType w f.name
  let w := { w with contentEncoding := none,
                    contentLength := some (Nat.repr f.uncompressedSize) }
  if r.method ≠ "HEAD" then
    { w with body := w.body ++ f.content.take f.uncompressedSize }
  else w

/-- `bufSize` from buf_pool.go: the buffers handed out by the pool. -/
def bufSize : Nat := 32768

/-- Embeds the raw-copy loop of `serveDeflate` (zipfs.go:766-793):
while bytes remain, `ReadAt` up to `bufSize` bytes at `offset` from the
archive and write them out.  Returns the bytes written and whether the
loop completed; a short archive makes `ReadAt` fail, stopping the loop
(`false`).  Fuel bounds the iteration count; `remaining` iterations
always suffice because each one consumes at least one byte. -/
def copyLoop (archive : List Nat) : Nat → Nat → Nat → List Nat × Bool
  | _, _, 0 => ([], true)
  | 0, _, _ + 1 => ([], false)
  | fuel + 1, offset, rem + 1 =>
    let remaining := rem + 1
    let size := min bufSize remaining
    if offset + size ≤ archive.length then
      let b := (archive.drop offset).take size
      let rest := copyLoop archive fuel (offset + size) (remaining - size)
      (b ++ rest.1, rest.2)
    else ([], false)

/-- Embeds `serveDeflate` (zipfs.go:734-794): clients whose
Accept-Encoding does not contain `"deflate"` fall back to
`serveIdentity`; otherwise Content-Encoding `deflate` and
Content-Length = compressed size are set and, for non-HEAD requests,
the raw compressed bytes are copied from the archive starting at the
entry's data offset.  A failure before anything was written reports an
internal server error. -/
def serveDeflate (r : Request) (f : ZipEntry) (archive : List Nat) (w : Response) :
    Response :=
  let acceptsDeflate := strContains r.acceptEncoding "deflate"
  if acceptsDeflate = false then serveIdentity r f w
  else
    let w := setContentType w f.name
    let w := { w with contentEncoding := some "deflate",
                      contentLength := some (Nat.repr f.compressedSize) }
    if r.method = "HEAD" then w
    else
      let res := copyLoop archive f.compressedSize f.dataOffset f.compressedSize
      if res.1.isEmpty ∧ res.2 = false then internalServerError w
      else { w with body := w.body ++ res.1 }

/-- Embeds `checkETag` (check_etag.go:23-74).  `parseTime` stands for
the external `http.ParseTime` (HTTP transport primitives are an
external contract); `modtime` is the entry's modification time in
seconds, `0` meaning unknown (`IsZero`).  Returns the effective Range
header value, the done flag, and the possibly mutated response. -/
def checkETag (parseTime : String → Option Nat) (modtime : Nat)
    (w : Response) (r : Request) : String × Bool × Response :=
  let etag := w.etag.getD ""
  let rangeReq := r.range
  let rangeReq :=
    if r.ifRange ≠ "" ∧ r.ifRange ≠ etag then
      let timeMatches :=
        if modtime ≠ 0 then
          match parseTime r.ifRange with
          | some t => t == modtime
          | none => false
        else false
      if timeMatches then rangeReq else ""
    else rangeReq
  if r.ifNoneMatch ≠ "" then
    if etag = "" then (rangeReq, false, w)
    else if r.method ≠ "GET" ∧ r.method ≠ "HEAD" then (rangeReq, false, w)
    else if r.ifNoneMatch = etag ∨ r.ifNoneMatch = "*" then
      ("", true, { w with contentType := none, contentLength := none, status := 304 })
    else (rangeReq, false, w)
  else (rangeReq, false, w)

/-- The handler state built by `newHandler` (zipfs.go:654-675): the
archive's underlying byte source and the flat path map.  The map is an
association list with later insertions shadowing earlier ones,
matching Go map assignment. -/
structure FileHandler where
  readerAt : List Nat
  m : List (String × ZipEntry)
deriving Repr

/-- Embeds `newHandler`: keys are the entry names with a leading slash. -/
def newHandler (readerAt : List Nat) (entries : List ZipEntry) : FileHandler :=
  { readerAt := readerAt,
    m := entries.foldl (fun m f => ("/" ++ f.name, f) :: m) [] }

/-- Embeds `serveStandard` (zipfs.go:825-837): extraction to a temp
file plus delegation to `http.ServeContent`, which is an external
collaborator passed in as `serveContent`. -/
def serveStandard (serveContent : Response → Request → ZipEntry → Response)
    (w : Response) (r : Request) (f : ZipEntry) : Response :=
  serveContent w r f

/-- The path normalization at the top of `fileHandler.ServeHTTP`
(zipfs.go:678-683): ensure a leading slash, then `path.Clean`. -/
def requestPath (r : Request) : String :=
  pathClean (if listStartsWith "/".data r.path.data then r.path else "/" ++ r.path)

/-- Embeds `fileHandler.ServeHTTP` (zipfs.go:677-712). -/
def serveHTTP (serveContent : Response → Request → ZipEntry → Response)
    (parseTime : String → Option Nat)
    (h : FileHandler) (w : Response) (r : Request) : Response :=
  match h.m.lookup (requestPath r) with
  | none => notFound w
  | some f =>
    let w := { w with etag := some (calcEtag f) }
    let res := checkETag parseTime f.modtime w r
    if res.2.1 then res.2.2
    else if res.1 ≠ "" then serveStandard serveContent res.2.2 r f
    else
      if f.method = zipStore then serveIdentity r f res.2.2
      else if f.method = zipDeflate then serveDeflate r f h.readerAt res.2.2
      else internalServerError res.2.2

/-! ## The `FileSystem` surface (zipfs.go:319-399) -/

/-- A node in the file-info map, as far as `Open` needs it. -/
structure FileInfoNode where
  name : String
deriving DecidableEq, Repr

/-- A handle returned by `FileSystem.Open`, as produced by
`fileInfo.openReader`: the cleaned name used to open and the node. -/
structure OpenedFile where
  name : String
  info : FileInfoNode
deriving DecidableEq, Repr

/-- The `FileSystem` state: the underlying byte source and zip reader
(present or released) and the file-info map, which `Close` does not
touch. -/
structure ZFileSystem where
  readerAt : Option (List Nat)
  readerPresent : Bool
  closerPresent : Bool
  fileInfos : List (String × FileInfoNode)
deriving Repr

/-- Embeds `FileSystem.Open` (zipfs.go:332-341): clean the name, strip
leading slashes, look the node up; `os.ErrNotExist` when absent.  The
source performs no check of the closed state. -/
def fsOpen (fs : ZFileSystem) (name : String) : Except GoErr OpenedFile :=
  let cleaned := pathClean name
  let trimmed := trimLeftSlashes cleaned
  match fs.fileInfos.lookup trimmed with
  | none => .error (.pathError "Open" cleaned .notExist)
  | some fi => .ok { name := cleaned, info := fi }

/-- Embeds `FileSystem.Close` (zipfs.go:344-353): releases the reader,
the byte source, and the closer; the error of closing the underlying
file is nil in this model.  `fileInfos` is left in place. -/
def fsClose (fs : ZFileSystem) : Except GoErr Unit × ZFileSystem :=
  (.ok (), { fs with readerPresent := false, readerAt := none,
                     closerPresent := false })

/-! ## Index construction (zipfs.go:357-447)

Node identity matters for the duplicate-node claim, so the build is
modelled with an explicit allocator: `nodes` records every `fileInfo`
ever created (with its creation name), `fm` is the name map (later
insertions shadow earlier ones, matching Go map assignment), and
`kids` records the parent-child appends performed by `New`. -/

/-- An allocated `fileInfo` node: its allocation id and the name it was
created with. -/
structure BuildNode where
  id : Nat
  name : String
deriving DecidableEq, Repr

/-- The build state threaded through `New`'s entry loop. -/
structure BuildState where
  nextId : Nat
  nodes : List BuildNode
  fm : List (String × Nat)
  kids : List (Nat × Nat)
deriving DecidableEq, Repr

/-- The empty state `fileInfoMap{}`. -/
def initBuild : BuildState :=
  { nextId := 0, nodes := [], fm := [], kids := [] }

/-- Embeds `fileInfoMap.FindOrCreate` (zipfs.go:422-436): look the
name up; when absent create a node registered under the name and — when
the name carries trailing slashes — also under the stripped name. -/
def findOrCreate (st : BuildState) (name : String) : Nat × BuildState :=
  let stripped := trimSlashStr name
  match st.fm.lookup name with
  | some id => (id, st)
  | none =>
    let id := st.nextId
    let fm1 := (name, id) :: st.fm
    let fm2 := if stripped ≠ name then (stripped, id) :: fm1 else fm1
    (id, { nextId := id + 1, nodes := st.nodes ++ [⟨id, name⟩],
           fm := fm2, kids := st.kids })

/-- The parent-directory name computed by `fileInfoMap.FindOrCreateParent`
(zipfs.go:438-447): strip trailing slashes, take `path.Dir`, map `"."`
to `"/"`, and ensure a trailing slash. -/
def parentDirName (name : String) : String :=
  let stripped := trimSlashStr name
  let dirName := pathDir stripped
  if dirName = "." then "/"
  else if dirName.data.getLast? = some '/' then dirName
  else dirName ++ "/"

/-- Embeds `fileInfoMap.FindOrCreateParent`. -/
def findOrCreateParent (st : BuildState) (name : String) : Nat × BuildState :=
  findOrCreate st (parentDirName name)

/-- One iteration of the entry loop in `New` (zipfs.go:385-390):
find-or-create the entry's node (the `zipFile` attachment does not
affect the map or the allocator), find-or-create its parent, and append
the node to the parent's child list. -/
def buildStep (st : BuildState) (entryName : String) : BuildState :=
  let res := findOrCreate st entryName
  let res2 := findOrCreateParent res.2 entryName
  { res2.2 with kids := res2.2.kids ++ [(res2.1, res.1)] }

/-- The whole index build over an entry-name list. -/
def buildIndex (entries : List String) : BuildState :=
  entries.foldl buildStep initBuild

/-- The sequence of names passed to `FindOrCreate` during the build:
each entry contributes its own name and its computed parent name. -/
def buildCalls (entries : List String) : List String :=
  (entries.map (fun e => [e, parentDirName e])).flatten

/-- Applying a bare sequence of `FindOrCreate` calls to a state. -/
def applyCalls (st : BuildState) (calls : List String) : BuildState :=
  calls.foldl (fun s n => (findOrCreate s n).2) st

/-- How many allocated nodes resolve (by trailing-slash stripping) to
the given name — the count of distinct `fileInfo` objects for it. -/
def allocCountFor (st : BuildState) (nm : String) : Nat :=
  st.nodes.countP (fun nd => trimSlashStr nd.name = nm)

/-! ## Supporting lemmas -/

/-- The sixteen lowercase hexadecimal digit characters. -/
def hexCharset : List Char := "0123456789abcdef".data

theorem hexDigitChar_mem : ∀ m, m < 16 → hexDigitChar m ∈ hexCharset := by decide

theorem hexCore_chars :
    ∀ fuel n acc, (∀ c ∈ acc, c ∈ hexCharset) →
      ∀ c ∈ hexCore fuel n acc, c ∈ hexCharset := by
  intro fuel
  induction fuel with
  | zero => intro n acc hacc c hc; exact hacc c hc
  | succ m ih =>
    intro n acc hacc c hc
    unfold hexCore at hc
    by_cases hn : n = 0
    · simp only [hn, if_true, reduceIte] at hc; exact hacc c hc
    · simp only [hn, if_false, reduceIte] at hc
      refine ih (n / 16) _ ?_ c hc
      intro d hd
      rcases List.mem_cons.mp hd with h | h
      · exact h ▸ hexDigitChar_mem _ (Nat.mod_lt _ (by omega))
      · exact hacc d h

theorem goHex_chars (n : Nat) : ∀ c ∈ (goHex n).data, c ∈ hexCharset := by
  unfold goHex
  by_cases hn : n = 0
  · simp only [hn, if_true, reduceIte]; decide
  · simp only [hn, if_false, reduceIte]
    exact hexCore_chars n n [] (by simp)

theorem setContentType_etag (w : Response) (s : String) :
    (setContentType w s).etag = w.etag := by
  unfold setContentType
  cases w.contentType <;> rfl

theorem serveIdentity_etag (r : Request) (f : ZipEntry) (w : Response) :
    (serveIdentity r f w).etag = w.etag := by
  unfold serveIdentity
  split <;> simp [setContentType_etag]

theorem internalServerError_etag (w : Response) :
    (internalServerError w).etag = w.etag := rfl

theorem serveDeflate_etag (r : Request) (f : ZipEntry) (a : List Nat)
    (w : Response) : (serveDeflate r f a w).etag = w.etag := by
  simp only [serveDeflate]
  by_cases hacc : strContains r.acceptEncoding "deflate" = false
  · rw [if_pos hacc]; exact serveIdentity_etag r f w
  · rw [if_neg hacc]
    by_cases hhead : r.method = "HEAD"
    · rw [if_pos hhead]; simp [setContentType_etag]
    · rw [if_neg hhead]
      split <;> simp [internalServerError, setContentType_etag]

/-- With no If-None-Match header and no Range header, the conditional
evaluator reports "not done" and an empty effective range, leaving the
response untouched. -/
theorem checkETag_no_conditional (pt : String → Option Nat) (mt : Nat)
    (w : Response) (r : Request)
    (hinm : r.ifNoneMatch = "") (hrange : r.range = "") :
    checkETag pt mt w r = ("", false, w) := by
  simp only [checkETag, hinm, hrange]
  simp only [ne_eq, not_true_eq_false, false_and, if_false, reduceIte]
  repeat' split
  all_goals rfl

/-- For a request that resolves to entry `f` and carries no conditional
headers, `ServeHTTP` leaves `calcEtag f` as the response's Etag header
on every dispatch path. -/
theorem serveHTTP_sets_etag (sc : Response → Request → ZipEntry → Response)
    (pt : String → Option Nat) (h : FileHandler) (w : Response) (r : Request)
    (f : ZipEntry) (hlook : h.m.lookup (requestPath r) = some f)
    (hinm : r.ifNoneMatch = "") (hrange : r.range = "") :
    (serveHTTP sc pt h w r).etag = some (calcEtag f) := by
  simp only [serveHTTP, hlook]
  rw [checkETag_no_conditional pt f.modtime _ r hinm hrange]
  simp only [ne_eq, not_true_eq_false, if_false, reduceIte]
  by_cases h0 : f.method = zipStore
  · simp [h0, serveIdentity_etag]
  · by_cases h8 : f.method = zipDeflate
    · simp [h0, h8, serveDeflate_etag, zipStore, zipDeflate]
    · simp [h0, h8, internalServerError_etag]

/-! ## C1: the spec's ETag example -/

/-- C1 (counterexample): for an entry with CRC32 `0x27106c15` and
compressed size `0x45b`, `calcEtag` does not produce
`"27106c15f45b"` — the claimed example string is not a fixed point of
the implemented (and §6-canonical) formula. -/
theorem etag_example_counterexample :
    calcEtag { name := "random.dat", crc32 := 0x27106c15,
               compressedSize := 0x45b, uncompressedSize := 10000,
               method := 8, dataOffset := 0, content := [], modtime := 1 } ≠
      "\x2227106c15f45b\x22" := by decide

/-- C1 (amended): for every entry with CRC32 `0x27106c15` and compressed
size `0x45b`, the ETag computed by `calcEtag` — and set on the response
by `ServeHTTP` whenever the request resolves to that entry and the
response is not delegated to the external range server — is exactly
`"45b27106c15"` including the surrounding double quotes. -/
theorem etag_example_amended (f : ZipEntry)
    (hcrc : f.crc32 = 0x27106c15) (hsz : f.compressedSize = 0x45b) :
    calcEtag f = "\x2245b27106c15\x22" ∧
    ∀ (sc : Response → Request → ZipEntry → Response)
      (pt : String → Option Nat) (h : FileHandler) (w : Response) (r : Request),
      h.m.lookup (requestPath r) = some f →
      r.ifNoneMatch = "" → r.range = "" →
      (serveHTTP sc pt h w r).etag = some "\x2245b27106c15\x22" := by
  have hval : calcEtag f = "\x2245b27106c15\x22" := by
    unfold calcEtag
    rw [hcrc, hsz]
    decide
  refine ⟨hval, ?_⟩
  intro sc pt h w r hlook hinm hrange
  rw [serveHTTP_sets_etag sc pt h w r f hlook hinm hrange, hval]

/-- C1 witness. -/
theorem etag_example_amended_witness :
    calcEtag { name := "x", crc32 := 0x27106c15, compressedSize := 0x45b,
               uncompressedSize := 0, method := 8, dataOffset := 0,
               content := [], modtime := 1 } = "\x2245b27106c15\x22" :=
  (etag_example_amended _ rfl rfl).1

/-! ## C2: the ETag format -/

/-- C2: for every archive entry (the CRC32 field being 32 bits wide),
`calcEtag` returns exactly a double-quoted rendering of the 64-bit
value CRC32 XOR ((compressed size masked to its low 32 bits) shifted
left by 32), and every character between the quotes is a lowercase
hexadecimal digit. -/
theorem calcEtag_matches_spec (f : ZipEntry) (hcrc : f.crc32 < 2 ^ 32) :
    calcEtag f = etagSpecString f ∧
    (etagSpecString f).data =
      '\x22' :: ((goHex (etagSpecValue f)).data ++ ['\x22']) ∧
    ∀ c ∈ (goHex (etagSpecValue f)).data, c ∈ hexCharset := by
  refine ⟨?_, ?_, goHex_chars _⟩
  · unfold calcEtag etagSpecString etagSpecValue
    rw [Nat.mod_eq_of_lt hcrc]
  · unfold etagSpecString
    rw [String.data_append, String.data_append]
    rfl

/-- C2 witness: the archive entry behind the repository's own test
expectation (`random.dat`: CRC32 `0x6c15f45b`, compressed size
`0x2710`) yields the documented ETag `"27106c15f45b"`. -/
theorem calcEtag_matches_spec_witness :
    let f : ZipEntry :=
      { name := "random.dat", crc32 := 0x6c15f45b,
        compressedSize := 0x2710, uncompressedSize := 10000,
        method := 0, dataOffset := 0, content := [], modtime := 1 }
    f.crc32 < 2 ^ 32 ∧ calcEtag f = etagSpecString f ∧
      calcEtag f = "\x2227106c15f45b\x22" :=
  ⟨by decide, (calcEtag_matches_spec _ (by decide)).1, by decide⟩

/-! ## C9: `Stat` is not gated on the closed flag -/

/-- C9: for every open handle, `Stat` returns the handle's file info
with a nil error, both before and after `Close` — while `Read` and
`Seek` on a closed handle fail with the file-closed error. -/
theorem stat_not_gated_on_closed (f : FileReader α) (content : List Nat)
    (n : Nat) (offset : Int) (whence : Nat) :
    frStat f = .ok f.info ∧
    frStat (frClose f).2 = .ok f.info ∧
    frRead content (frClose f).2 n =
      .error (.pathError "Read" f.name .fileClosed) ∧
    frSeek content (frClose f).2 offset whence =
      .error (.pathError "Seek" f.name .fileClosed) := by
  refine ⟨rfl, rfl, ?_, ?_⟩ <;> simp [frClose, frRead, frSeek]

/-! ## C10: `Readdir` restarts after the exhausting call -/

/-- C10: after a positive-count `Readdir` run has just returned
`io.EOF` (the exhausting call clears the pending slice), a further
`Readdir` call with a positive count on the same handle restarts the
iteration from the first child of the sorted list. -/
theorem readdir_restart_after_eof (f : FileReader α) (count : Int)
    (hdir : f.isDir = true) (hc : 0 < count)
    (heof : (frReaddir f count).2.1 = some .eof) :
    (frReaddir (frReaddir f count).2.2 count).1 =
      f.children.take count.toNat := by
  have hfresh : ∀ g : FileReader α, g.readdirState = none → g.isDir = true →
      g.children = f.children →
      (frReaddir g count).1 = f.children.take count.toNat := by
    intro g h1 h2 h3
    simp only [frReaddir, if_pos hc, h1, fiReaddir, h2, if_true, reduceIte]
    unfold frReaddirStep
    by_cases hle : count.toNat ≤ g.children.length
    · rw [if_pos hle]
      show g.children.take count.toNat = f.children.take count.toNat
      rw [h3]
    · rw [if_neg hle]
      show g.children = f.children.take count.toNat
      rw [h3] at hle ⊢
      exact (List.take_of_length_le (by omega)).symm
  rcases hrd : f.readdirState with _ | l
  · have h1 : frReaddir f count = frReaddirStep f f.children count := by
      simp only [frReaddir, if_pos hc, hrd, fiReaddir, hdir, if_true, reduceIte]
    rw [h1] at heof ⊢
    unfold frReaddirStep at heof ⊢
    by_cases hle : count.toNat ≤ f.children.length
    · rw [if_pos hle] at heof; simp at heof
    · rw [if_neg hle] at heof ⊢
      exact hfresh _ rfl hdir rfl
  · have h1 : frReaddir f count = frReaddirStep f l count := by
      simp only [frReaddir, if_pos hc, hrd]
    rw [h1] at heof ⊢
    unfold frReaddirStep at heof ⊢
    by_cases hle : count.toNat ≤ l.length
    · rw [if_pos hle] at heof; simp at heof
    · rw [if_neg hle] at heof ⊢
      exact hfresh _ rfl hdir rfl

/-- C10 witness: a directory of one child read with count 2 — the first
call exhausts and returns EOF, the next call restarts at the front. -/
theorem readdir_restart_after_eof_witness :
    let f : FileReader Nat :=
      { name := "d", info := 0, children := [7], isDir := true,
        closed := false, streamPos := none, filePos := none,
        readdirState := none }
    (frReaddir f 2).2.1 = some .eof ∧
    (frReaddir (frReaddir f 2).2.2 2).1 = [7] :=
  ⟨by decide,
   readdir_restart_after_eof _ 2 rfl (by decide) (by decide)⟩

/-! ## C7: `Open` after `FileSystem.Close` -/

/-- C7 (code bug): `FileSystem.Close` releases the reader, byte source
and closer but leaves `fileInfos` in place, and `Open` never consults
the closed state — so opening an archived path after `Close` succeeds
with a nil error instead of failing with a Closed error, although the
repository's own test demands an error containing "filesystem closed".
This theorem evaluates the embedded code at the failing input. -/
theorem open_after_close_succeeds :
    let fs : ZFileSystem :=
      { readerAt := some [0], readerPresent := true, closerPresent := true,
        fileInfos := [("img/circle.png", { name := "img/circle.png" })] }
    let fs2 := (fsClose fs).2
    fs2.readerPresent = false ∧ fs2.readerAt = none ∧
    fsOpen fs2 "/img/circle.png" =
      .ok { name := "/img/circle.png", info := { name := "img/circle.png" } } ∧
    (∀ name : String, fsOpen fs2 name = fsOpen fs name) := by
  refine ⟨rfl, rfl, by rfl, fun name => rfl⟩

/-! ## C3: read, seek to 0, read again -/

theorem take_append_drop_len (d : List β) (n : Nat) :
    d.take n ++ d.drop ((d.take n).length) = d := by
  rcases le_total n d.length with h | h
  · rw [List.length_take, Nat.min_eq_left h, List.take_append_drop]
  · rw [List.take_of_length_le h, List.drop_length, List.append_nil]

theorem drop_take_append (l : List β) (p k : Nat) :
    (l.drop p).take k ++ l.drop (p + ((l.drop p).take k).length) = l.drop p := by
  rw [← List.drop_drop, take_append_drop_len]

theorem advanceReader_closed (f : FileReader α) (k : Nat) :
    (advanceReader f k).closed = f.closed := by
  unfold advanceReader; cases f.filePos <;> rfl

theorem posOf_advanceReader (f : FileReader α) (k : Nat) :
    posOf (advanceReader f k) = posOf f + k := by
  cases hfp : f.filePos <;> simp [advanceReader, posOf, hfp]

theorem frRead_not_closed (content : List Nat) (f : FileReader α) (n : Nat)
    (hcl : f.closed = false) :
    frRead content f n =
      .ok ((content.drop (posOf f)).take n,
           advanceReader f ((content.drop (posOf f)).take n).length) := by
  cases hfp : f.filePos <;> simp [frRead, advanceReader, posOf, hcl, hfp]

/-- Reading a non-closed handle to the end with a positive buffer size
delivers the content from the current position and leaves the handle
open. -/
theorem readToEnd_ok (content : List Nat) (n : Nat) (hn : 0 < n) :
    ∀ (fuel : Nat) (f : FileReader α), f.closed = false →
      content.length - posOf f < fuel →
      ∃ f' : FileReader α,
        readToEnd content n fuel f = .ok (content.drop (posOf f), f') ∧
        f'.closed = false := by
  intro fuel
  induction fuel with
  | zero => intro f _ hfuel; omega
  | succ m ih =>
    intro f hcl hfuel
    by_cases he : ((content.drop (posOf f)).take n).isEmpty
    · have hdrop : content.drop (posOf f) = [] := by
        rcases List.take_eq_nil_iff.mp (List.isEmpty_iff.mp he) with h | h
        · omega
        · exact h
      refine ⟨advanceReader f ((content.drop (posOf f)).take n).length, ?_,
        by rw [advanceReader_closed]; exact hcl⟩
      simp only [readToEnd, frRead_not_closed content f n hcl, he, if_true,
        reduceIte]
      rw [hdrop]
    · have hlen : 0 < ((content.drop (posOf f)).take n).length :=
        List.length_pos.mpr (fun hnil => he (by simp [hnil]))
      have hchlen : ((content.drop (posOf f)).take n).length =
          min n (content.length - posOf f) := by
        rw [List.length_take, List.length_drop]
      obtain ⟨f', hrec, hcl'⟩ :=
        ih (advanceReader f ((content.drop (posOf f)).take n).length)
          (by rw [advanceReader_closed]; exact hcl)
          (by rw [posOf_advanceReader]; omega)
      rw [posOf_advanceReader] at hrec
      refine ⟨f', ?_, hcl'⟩
      simp only [readToEnd, frRead_not_closed content f n hcl, he, if_false,
        Bool.false_eq_true, reduceIte, hrec]
      rw [drop_take_append]

/-- C3: for every handle freshly obtained from `Open` on a
non-directory entry, reading the entire content, calling `Seek(0, 0)`,
and reading the entire content again yields a byte sequence identical
to the first read (both reads deliver exactly the entry's content). -/
theorem read_seek_read_roundtrip (content : List Nat) (n : Nat) (hn : 0 < n)
    (f0 : FileReader α) (hcl : f0.closed = false) (hs : f0.streamPos = none)
    (hf : f0.filePos = none) :
    readSeekRead content n f0 = .ok (content, content) := by
  have hpos0 : posOf f0 = 0 := by simp [posOf, hf, hs]
  obtain ⟨f1, h1, h1c⟩ :=
    readToEnd_ok content n hn (content.length + 1) f0 hcl (by omega)
  rw [hpos0, List.drop_zero] at h1
  have hseek : frSeek content f1 0 0 =
      .ok (0, { f1 with streamPos := none, filePos := some 0 }) := by
    simp [frSeek, h1c]
  set f2 : FileReader α := { f1 with streamPos := none, filePos := some 0 }
    with hf2
  have h2c : f2.closed = false := by simp [hf2, h1c]
  have hpos2 : posOf f2 = 0 := by simp [posOf, hf2]
  obtain ⟨f3, h3, _⟩ :=
    readToEnd_ok content n hn (content.length + 1) f2 h2c (by omega)
  rw [hpos2, List.drop_zero] at h3
  simp only [readSeekRead, h1, hseek, h3]

/-- C3 witness. -/
theorem read_seek_read_roundtrip_witness :
    readSeekRead [3, 1, 4, 1, 5] 2
      ({ name := "x", info := 0, children := [], isDir := false,
         closed := false, streamPos := none, filePos := none,
         readdirState := none } : FileReader Nat) =
      .ok ([3, 1, 4, 1, 5], [3, 1, 4, 1, 5]) :=
  read_seek_read_roundtrip [3, 1, 4, 1, 5] 2 (by decide) _ rfl rfl rfl

/-! ## C4: `Readdir` pagination -/

theorem charListLe_total : ∀ as bs : List Char,
    charListLe as bs = true ∨ charListLe bs as = true := by
  intro as
  induction as with
  | nil => intro bs; left; rfl
  | cons a as ih =>
    intro bs
    cases bs with
    | nil => right; rfl
    | cons b bs =>
      by_cases h1 : a.toNat < b.toNat
      · left; simp [charListLe, h1]
      · by_cases h2 : b.toNat < a.toNat
        · right; simp [charListLe, h2]
        · rcases ih bs with h | h
          · left; simp [charListLe, h1, h2, h]
          · right; simp [charListLe, h1, h2, h]

theorem charListLe_trans : ∀ as bs cs : List Char,
    charListLe as bs = true → charListLe bs cs = true →
    charListLe as cs = true := by
  intro as
  induction as with
  | nil => intro bs cs _ _; rfl
  | cons a as ih =>
    intro bs cs h1 h2
    cases bs with
    | nil => simp [charListLe] at h1
    | cons b bs =>
      cases cs with
      | nil => simp [charListLe] at h2
      | cons c cs =>
        by_cases hab : a.toNat < b.toNat
        · by_cases hbc : b.toNat < c.toNat
          · have hac : a.toNat < c.toNat := lt_trans hab hbc
            simp [charListLe, hac]
          · by_cases hcb : c.toNat < b.toNat
            · simp [charListLe, hbc, hcb] at h2
            · have hac : a.toNat < c.toNat := by omega
              simp [charListLe, hac]
        · by_cases hba : b.toNat < a.toNat
          · simp [charListLe, hab, hba] at h1
          · by_cases hbc : b.toNat < c.toNat
            · have hac : a.toNat < c.toNat := by omega
              simp [charListLe, hac]
            · by_cases hcb : c.toNat < b.toNat
              · simp [charListLe, hbc, hcb] at h2
              · have hac : ¬ a.toNat < c.toNat := by omega
                have hca : ¬ c.toNat < a.toNat := by omega
                simp only [charListLe, hac, hca, if_false, reduceIte]
                exact ih bs cs (by simpa [charListLe, hab, hba] using h1)
                  (by simpa [charListLe, hbc, hcb] using h2)

/-- Draining a directory handle with a fixed positive count: the
collected batches concatenate to exactly the pending list and the run
ends with `io.EOF`. -/
theorem runReaddir_drain (count : Int) (hc : 0 < count) :
    ∀ (fuel : Nat) (l : List α) (f : FileReader α), l.length < fuel →
      f.isDir = true →
      (f.readdirState = some l ∨ (f.readdirState = none ∧ f.children = l)) →
      (runReaddir count fuel f).1.flatten = l ∧
      (runReaddir count fuel f).2 = some .eof := by
  intro fuel
  induction fuel with
  | zero => intro l f h; omega
  | succ m ih =>
    intro l f hfl hdir hst
    have hfr : frReaddir f count = frReaddirStep f l count := by
      rcases hst with h | ⟨h1, h2⟩
      · simp only [frReaddir, if_pos hc, h]
      · simp only [frReaddir, if_pos hc, h1, fiReaddir, hdir, if_true,
          reduceIte, h2]
    unfold frReaddirStep at hfr
    by_cases hle : count.toNat ≤ l.length
    · rw [if_pos hle] at hfr
      have hrec := ih (l.drop count.toNat)
        { f with readdirState := some (l.drop count.toNat) }
        (by rw [List.length_drop]; omega) hdir (Or.inl rfl)
      simp only [runReaddir, hfr]
      refine ⟨?_, by simpa using hrec.2⟩
      simp only [List.flatten_cons, hrec.1, List.take_append_drop]
    · rw [if_neg hle] at hfr
      simp only [runReaddir, hfr]
      exact ⟨by simp, by simp⟩

/-- C4: for every directory handle over a directory with N children,
repeated `Readdir` calls with a fixed positive count return exactly the
N children in total, in the order of the child list — which is sorted
lexicographically by base name and is a permutation of the directory's
children — with the exhausting call returning the final partial batch
together with `io.EOF`; and a single `Readdir` call with count ≤ 0
returns all N children with no error. -/
theorem readdir_pagination (children : List DirChild) (f : FileReader DirChild)
    (hdir : f.isDir = true) (hfresh : f.readdirState = none)
    (hch : f.children = sortFileInfos children) (count : Int) (hc : 0 < count) :
    ((runReaddir count (f.children.length + 1) f).1.flatten = f.children ∧
     (runReaddir count (f.children.length + 1) f).2 = some .eof) ∧
    f.children.Perm children ∧
    List.Pairwise (fun a b => childLe a b = true) f.children ∧
    ∀ c : Int, c ≤ 0 → frReaddir f c = (f.children, none, f) := by
  obtain ⟨h1, h2⟩ := runReaddir_drain count hc (f.children.length + 1)
    f.children f (by omega) hdir (Or.inr ⟨hfresh, rfl⟩)
  have htot : IsTotal DirChild (fun a b => childLe a b = true) :=
    ⟨fun a b => charListLe_total _ _⟩
  have htr : IsTrans DirChild (fun a b => childLe a b = true) :=
    ⟨fun a b c hx hy => charListLe_trans _ _ _ hx hy⟩
  refine ⟨⟨h1, h2⟩, ?_, ?_, ?_⟩
  · rw [hch]; exact List.perm_insertionSort _ children
  · rw [hch]
    exact @List.sorted_insertionSort DirChild
      (fun a b => childLe a b = true) (fun a b => instDecidableEqBool _ _)
      htot htr children
  · intro c hcle
    simp only [frReaddir]
    rw [if_neg (by omega)]
    simp only [fiReaddir, hdir, if_true, reduceIte]

/-- C4 witness: three children delivered in sorted order in batches of
two, the exhausting call carrying EOF, and a count-0 call returning all
children at once. -/
theorem readdir_pagination_witness :
    let cs := sortFileInfos [⟨"img/b.png"⟩, ⟨"img/a.png"⟩, ⟨"img/c.png"⟩]
    let f : FileReader DirChild :=
      { name := "img", info := ⟨"img"⟩, children := cs, isDir := true,
        closed := false, streamPos := none, filePos := none,
        readdirState := none }
    ((runReaddir 2 (f.children.length + 1) f).1.flatten = f.children ∧
     (runReaddir 2 (f.children.length + 1) f).2 = some .eof) ∧
    f.children.Perm [⟨"img/b.png"⟩, ⟨"img/a.png"⟩, ⟨"img/c.png"⟩] ∧
    List.Pairwise (fun a b => childLe a b = true) f.children ∧
    ∀ c : Int, c ≤ 0 → frReaddir f c = (f.children, none, f) :=
  readdir_pagination [⟨"img/b.png"⟩, ⟨"img/a.png"⟩, ⟨"img/c.png"⟩] _
    rfl rfl rfl 2 (by decide)

/-! ## C5: deflate passthrough vs identity fallback -/

/-- The raw-copy loop, run with enough fuel against a long-enough
archive, writes exactly the `remaining` bytes starting at `offset` and
completes. -/
theorem copyLoop_ok (archive : List Nat) :
    ∀ (fuel offset remaining : Nat), remaining ≤ fuel →
      offset + remaining ≤ archive.length →
      copyLoop archive fuel offset remaining =
        ((archive.drop offset).take remaining, true) := by
  intro fuel
  induction fuel with
  | zero =>
    intro offset remaining h1 h2
    have h0 : remaining = 0 := by omega
    subst h0
    simp [copyLoop]
  | succ m ih =>
    intro offset remaining h1 h2
    rcases remaining with _ | rem
    · simp [copyLoop]
    · simp only [copyLoop]
      have hsz1 : 1 ≤ min bufSize (rem + 1) := by
        have hb : 1 ≤ bufSize := by norm_num [bufSize]
        omega
      have hszle : min bufSize (rem + 1) ≤ rem + 1 := Nat.min_le_right _ _
      rw [if_pos (by omega)]
      rw [ih (offset + min bufSize (rem + 1))
        (rem + 1 - min bufSize (rem + 1)) (by omega) (by omega)]
      have hjoin : (archive.drop offset).take (min bufSize (rem + 1)) ++
          (archive.drop (offset + min bufSize (rem + 1))).take
            (rem + 1 - min bufSize (rem + 1)) =
          (archive.drop offset).take (rem + 1) := by
        rw [← List.drop_drop, ← List.take_add]
        congr 1
        omega
      rw [hjoin]

/-- C5: for a GET request that resolves to a deflate-compressed entry,
with no Range header and no conditional headers: when the request's
Accept-Encoding contains "deflate", the response carries
`Content-Encoding: deflate`, Content-Length equal to the compressed
size, and a body of exactly the raw stored bytes at the entry's data
offset (compressed-size many of them); otherwise the response carries
no Content-Encoding header, Content-Length equal to the uncompressed
size, and the uncompressed content as body. -/
theorem serveHTTP_deflate (sc : Response → Request → ZipEntry → Response)
    (pt : String → Option Nat) (h : FileHandler) (r : Request) (f : ZipEntry)
    (hlook : h.m.lookup (requestPath r) = some f)
    (hget : r.method = "GET") (hinm : r.ifNoneMatch = "")
    (hrange : r.range = "") (hmeth : f.method = zipDeflate)
    (hlen : f.content.length = f.uncompressedSize)
    (harch : f.dataOffset + f.compressedSize ≤ h.readerAt.length) :
    (strContains r.acceptEncoding "deflate" = true →
      (serveHTTP sc pt h initResponse r).contentEncoding = some "deflate" ∧
      (serveHTTP sc pt h initResponse r).contentLength =
        some (Nat.repr f.compressedSize) ∧
      (serveHTTP sc pt h initResponse r).body =
        (h.readerAt.drop f.dataOffset).take f.compressedSize ∧
      (serveHTTP sc pt h initResponse r).body.length = f.compressedSize) ∧
    (strContains r.acceptEncoding "deflate" = false →
      (serveHTTP sc pt h initResponse r).contentEncoding = none ∧
      (serveHTTP sc pt h initResponse r).contentLength =
        some (Nat.repr f.uncompressedSize) ∧
      (serveHTTP sc pt h initResponse r).body = f.content) := by
  have hserve : serveHTTP sc pt h initResponse r =
      serveDeflate r f h.readerAt
        { initResponse with etag := some (calcEtag f) } := by
    simp only [serveHTTP, hlook]
    rw [checkETag_no_conditional pt f.modtime _ r hinm hrange]
    simp only [ne_eq, not_true_eq_false, if_false, reduceIte, hmeth]
    rw [if_neg (by decide)]
    rfl
  have hhead : (r.method = "HEAD") = False := by rw [hget]; simp
  rw [hserve]
  constructor
  · intro hacc
    have hcopy := copyLoop_ok h.readerAt f.compressedSize f.dataOffset
      f.compressedSize (le_refl _) harch
    refine ⟨?_, ?_, ?_, ?_⟩ <;>
      simp [serveDeflate, hacc, hhead, setContentType, initResponse, hcopy]
    omega
  · intro hacc
    refine ⟨?_, ?_, ?_⟩ <;>
      simp [serveDeflate, hacc, hhead, serveIdentity, setContentType,
        initResponse]
    omega

/-- C5 witness: a deflate-capable GET for a deflate entry receives the
raw stored bytes at the data offset with the compressed length. -/
theorem serveHTTP_deflate_witness :
    let f : ZipEntry :=
      { name := "a.bin", crc32 := 1, compressedSize := 3,
        uncompressedSize := 4, method := 8, dataOffset := 1,
        content := [9, 9, 9, 9], modtime := 5 }
    let h : FileHandler := newHandler [9, 1, 2, 3, 4, 5] [f]
    let r : Request :=
      { method := "GET", path := "/a.bin", acceptEncoding := "deflate, gzip",
        ifNoneMatch := "", ifRange := "", range := "" }
    let sc : Response → Request → ZipEntry → Response := fun w _ _ => w
    let pt : String → Option Nat := fun _ => none
    h.m.lookup (requestPath r) = some f ∧
    ((strContains r.acceptEncoding "deflate" = true →
      (serveHTTP sc pt h initResponse r).contentEncoding = some "deflate" ∧
      (serveHTTP sc pt h initResponse r).contentLength =
        some (Nat.repr f.compressedSize) ∧
      (serveHTTP sc pt h initResponse r).body =
        (h.readerAt.drop f.dataOffset).take f.compressedSize ∧
      (serveHTTP sc pt h initResponse r).body.length = f.compressedSize) ∧
    (strContains r.acceptEncoding "deflate" = false →
      (serveHTTP sc pt h initResponse r).contentEncoding = none ∧
      (serveHTTP sc pt h initResponse r).contentLength =
        some (Nat.repr f.uncompressedSize) ∧
      (serveHTTP sc pt h initResponse r).body = f.content)) :=
  ⟨by decide,
   serveHTTP_deflate _ _ _ _ _ (by decide) rfl rfl rfl rfl rfl (by decide)⟩

/-! ## C6: If-None-Match yields 304 -/

theorem calcEtag_ne_empty (f : ZipEntry) : calcEtag f ≠ "" := by
  unfold calcEtag
  intro h
  have hd := congrArg String.data h
  rw [String.data_append, String.data_append] at hd
  simp at hd

/-- C6: a GET request whose If-None-Match header equals the entry's
computed ETag is answered 304 Not Modified, with the Content-Type and
Content-Length headers deleted and no body bytes written. -/
theorem serveHTTP_if_none_match (sc : Response → Request → ZipEntry → Response)
    (pt : String → Option Nat) (h : FileHandler) (w0 : Response) (r : Request)
    (f : ZipEntry) (hlook : h.m.lookup (requestPath r) = some f)
    (hget : r.method = "GET") (hinm : r.ifNoneMatch = calcEtag f) :
    (serveHTTP sc pt h w0 r).status = 304 ∧
    (serveHTTP sc pt h w0 r).contentType = none ∧
    (serveHTTP sc pt h w0 r).contentLength = none ∧
    (serveHTTP sc pt h w0 r).body = w0.body := by
  have hne : calcEtag f ≠ "" := calcEtag_ne_empty f
  have hck : checkETag pt f.modtime { w0 with etag := some (calcEtag f) } r = ("", true, { w0 with etag := some (calcEtag f), contentType := none, contentLength := none, status := 304 }) := by
    simp [checkETag, hinm, hget, hne]
  simp [serveHTTP, hlook, hck]

/-- C6 witness. -/
theorem serveHTTP_if_none_match_witness :
    let f : ZipEntry :=
      { name := "a.bin", crc32 := 0x100, compressedSize := 0,
        uncompressedSize := 0, method := 8, dataOffset := 0,
        content := [], modtime := 5 }
    let h : FileHandler := newHandler [] [f]
    let r : Request :=
      { method := "GET", path := "/a.bin", acceptEncoding := "deflate",
        ifNoneMatch := "\x22100\x22", ifRange := "", range := "" }
    let sc : Response → Request → ZipEntry → Response := fun w _ _ => w
    let pt : String → Option Nat := fun _ => none
    h.m.lookup (requestPath r) = some f ∧
    r.ifNoneMatch = calcEtag f ∧
    (serveHTTP sc pt h initResponse r).status = 304 ∧
    (serveHTTP sc pt h initResponse r).contentType = none ∧
    (serveHTTP sc pt h initResponse r).contentLength = none ∧
    (serveHTTP sc pt h initResponse r).body = initResponse.body := by
  refine ⟨by decide, by decide, ?_, ?_, ?_, ?_⟩ <;>
    [exact (serveHTTP_if_none_match _ _ _ _ _ { name := "a.bin", crc32 := 0x100, compressedSize := 0, uncompressedSize := 0, method := 8, dataOffset := 0, content := [], modtime := 5 } (by decide) rfl (by decide)).1;
     exact (serveHTTP_if_none_match _ _ _ _ _ { name := "a.bin", crc32 := 0x100, compressedSize := 0, uncompressedSize := 0, method := 8, dataOffset := 0, content := [], modtime := 5 } (by decide) rfl (by decide)).2.1;
     exact (serveHTTP_if_none_match _ _ _ _ _ { name := "a.bin", crc32 := 0x100, compressedSize := 0, uncompressedSize := 0, method := 8, dataOffset := 0, content := [], modtime := 5 } (by decide) rfl (by decide)).2.2.1;
     exact (serveHTTP_if_none_match _ _ _ _ _ { name := "a.bin", crc32 := 0x100, compressedSize := 0, uncompressedSize := 0, method := 8, dataOffset := 0, content := [], modtime := 5 } (by decide) rfl (by decide)).2.2.2]

/-! ## C8: trailing-slash resolution at index-build time -/

/-- C8 (counterexample): building the index from the entry list
`["dir", "dir/"]` — the bare name processed before the slashed form —
allocates two distinct nodes whose names strip to `dir` (ids 0 and 2),
and both are appended to the root's child list; the claim's "no
duplicate node exists for that name" fails for this order, although the
two map keys do agree afterwards (both point at the second node). -/
theorem build_duplicate_node_counterexample :
    allocCountFor (buildIndex ["dir", "dir/"]) "dir" = 2 ∧
    (buildIndex ["dir", "dir/"]).nodes =
      [{ id := 0, name := "dir" }, { id := 1, name := "/" },
       { id := 2, name := "dir/" }] ∧
    (buildIndex ["dir", "dir/"]).fm.lookup "dir" = some 2 ∧
    (buildIndex ["dir", "dir/"]).fm.lookup "dir/" = some 2 ∧
    (buildIndex ["dir", "dir/"]).kids = [(1, 0), (1, 2)] := by decide

theorem head_dropWhile_false (p : Char → Bool) :
    ∀ (l : List Char) (c : Char), (l.dropWhile p).head? = some c →
      p c = false := by
  intro l
  induction l with
  | nil => intro c h; simp [List.dropWhile] at h
  | cons x xs ih =>
    intro c h
    by_cases hp : p x
    · rw [List.dropWhile_cons_of_pos hp] at h; exact ih c h
    · rw [List.dropWhile_cons_of_neg hp] at h
      simp at h
      rw [← h]; simpa using hp

/-- The result of stripping trailing slashes never ends in a slash. -/
theorem trimSlash_getLast (s : String) (c : Char)
    (h : (trimSlashStr s).data.getLast? = some c) : c ≠ '/' := by
  unfold trimSlashStr trimRightSlashes at h
  rw [show (String.mk ((s.data.reverse.dropWhile (fun c => c = '/')).reverse)).data = (s.data.reverse.dropWhile (fun c => c = '/')).reverse from rfl] at h
  rw [List.getLast?_reverse] at h
  have := head_dropWhile_false _ _ _ h
  simpa using this

theorem append_slash_getLast (t : String) :
    (t ++ "/").data.getLast? = some '/' := by
  rw [String.data_append]
  exact List.getLast?_concat _

/-- A stripped name never equals any name carrying a trailing slash. -/
theorem trimSlash_ne_append_slash (s t : String) :
    trimSlashStr s ≠ t ++ "/" := by
  intro h
  have h1 : (trimSlashStr s).data.getLast? = some '/' := by
    rw [h]; exact append_slash_getLast t
  exact trimSlash_getLast s '/' h1 rfl

theorem trimSlash_append_slash (nm : String) (h : trimSlashStr nm = nm) :
    trimSlashStr (nm ++ "/") = nm := by
  have hdata : (trimRightSlashes nm.data) = nm.data := congrArg String.data h
  unfold trimSlashStr trimRightSlashes at *
  have hrev : (nm ++ "/").data.reverse = '/' :: nm.data.reverse := by
    rw [String.data_append]
    simp
  rw [hrev, List.dropWhile_cons_of_pos (by simp), hdata]

theorem ne_append_slash (nm : String) : nm ≠ nm ++ "/" := by
  intro h
  have hlen := congrArg (fun s : String => s.data.length) h
  simp [String.data_append] at hlen

theorem lookup_cons_ne {β : Type} (k a : String) (v : β)
    (es : List (String × β)) (h : k ≠ a) :
    ((a, v) :: es).lookup k = es.lookup k := by
  simp [List.lookup, beq_eq_false_iff_ne.mpr h]

theorem lookup_cons_self {β : Type} (a : String) (v : β)
    (es : List (String × β)) : ((a, v) :: es).lookup a = some v := by
  simp [List.lookup]

/-- `New`'s entry loop and the bare `FindOrCreate` call sequence agree
on the allocator, the node record, and the map (only the child-list
bookkeeping differs). -/
theorem build_core : ∀ (entries : List String) (s t : BuildState),
    s.nextId = t.nextId → s.nodes = t.nodes → s.fm = t.fm →
    ((entries.foldl buildStep s).nextId =
        (applyCalls t (buildCalls entries)).nextId ∧
     (entries.foldl buildStep s).nodes =
        (applyCalls t (buildCalls entries)).nodes ∧
     (entries.foldl buildStep s).fm =
        (applyCalls t (buildCalls entries)).fm) := by
  have hfc : ∀ (s t : BuildState) (n : String),
      s.nextId = t.nextId → s.nodes = t.nodes → s.fm = t.fm →
      ((findOrCreate s n).2.nextId = (findOrCreate t n).2.nextId ∧
       (findOrCreate s n).2.nodes = (findOrCreate t n).2.nodes ∧
       (findOrCreate s n).2.fm = (findOrCreate t n).2.fm) := by
    intro s t n h1 h2 h3
    unfold findOrCreate
    rw [h3]
    cases ht : t.fm.lookup n
    · simp [h1, h2, h3]
    · simp [h1, h2, h3]
  intro entries
  induction entries with
  | nil => intro s t h1 h2 h3; exact ⟨h1, h2, h3⟩
  | cons e es ih =>
    intro s t h1 h2 h3
    have hbc : buildCalls (e :: es) =
        e :: parentDirName e :: buildCalls es := by
      simp [buildCalls]
    rw [hbc]
    show ((es.foldl buildStep (buildStep s e)).nextId = _ ∧ _)
    have hstep := hfc s t e h1 h2 h3
    have hstep2 := hfc (findOrCreate s e).2 (findOrCreate t e).2
      (parentDirName e) hstep.1 hstep.2.1 hstep.2.2
    have hcore : (buildStep s e).nextId =
        (findOrCreate (findOrCreate t e).2 (parentDirName e)).2.nextId ∧
        (buildStep s e).nodes =
          (findOrCreate (findOrCreate t e).2 (parentDirName e)).2.nodes ∧
        (buildStep s e).fm =
          (findOrCreate (findOrCreate t e).2 (parentDirName e)).2.fm := by
      simp only [buildStep, findOrCreateParent]
      exact hstep2
    exact ih (buildStep s e) _ hcore.1 hcore.2.1 hcore.2.2

/-- A `FindOrCreate` call for a name that does not strip to `nm`
touches neither of `nm`'s map keys and allocates no node for it. -/
theorem findOrCreate_preserveA (nm : String) (hnm : trimSlashStr nm = nm)
    (st : BuildState) (s : String) (hs : trimSlashStr s ≠ nm)
    (h1 : st.fm.lookup nm = none) (h2 : st.fm.lookup (nm ++ "/") = none)
    (h3 : allocCountFor st nm = 0) :
    (findOrCreate st s).2.fm.lookup nm = none ∧
    (findOrCreate st s).2.fm.lookup (nm ++ "/") = none ∧
    allocCountFor (findOrCreate st s).2 nm = 0 := by
  have hnm_s : nm ≠ s := by
    intro hcon
    apply hs
    rw [← hcon]
    exact hnm
  have hslash_s : (nm ++ "/") ≠ s := by
    intro hcon
    apply hs
    rw [← hcon]
    exact trimSlash_append_slash nm hnm
  have hnm_t : nm ≠ trimSlashStr s := fun hcon => hs hcon.symm
  have hslash_t : (nm ++ "/") ≠ trimSlashStr s :=
    fun hcon => trimSlash_ne_append_slash s nm hcon.symm
  unfold findOrCreate
  cases hl : st.fm.lookup s
  case some id => exact ⟨h1, h2, h3⟩
  case none =>
    unfold allocCountFor at h3 ⊢
    dsimp only
    by_cases hss : trimSlashStr s ≠ s
    · rw [if_pos hss]
      refine ⟨?_, ?_, ?_⟩
      · rw [lookup_cons_ne _ _ _ _ hnm_t, lookup_cons_ne _ _ _ _ hnm_s]
        exact h1
      · rw [lookup_cons_ne _ _ _ _ hslash_t, lookup_cons_ne _ _ _ _ hslash_s]
        exact h2
      · rw [List.countP_append, h3]
        simp [hs]
    · rw [if_neg hss]
      refine ⟨?_, ?_, ?_⟩
      · rw [lookup_cons_ne _ _ _ _ hnm_s]
        exact h1
      · rw [lookup_cons_ne _ _ _ _ hslash_s]
        exact h2
      · rw [List.countP_append, h3]
        simp [hs]

/-- A `FindOrCreate` call while both keys already point at node `id0`
(and exactly one node for `nm` exists) changes nothing about `nm`. -/
theorem findOrCreate_preserveB (nm : String) (hnm : trimSlashStr nm = nm)
    (st : BuildState) (s : String)
    (hs : trimSlashStr s = nm → s = nm ∨ s = nm ++ "/") (id0 : Nat)
    (h1 : st.fm.lookup nm = some id0)
    (h2 : st.fm.lookup (nm ++ "/") = some id0)
    (h3 : allocCountFor st nm = 1) :
    (findOrCreate st s).2.fm.lookup nm = some id0 ∧
    (findOrCreate st s).2.fm.lookup (nm ++ "/") = some id0 ∧
    allocCountFor (findOrCreate st s).2 nm = 1 := by
  unfold findOrCreate
  cases hl : st.fm.lookup s
  case some id => exact ⟨h1, h2, h3⟩
  case none =>
    have hts : trimSlashStr s ≠ nm := by
      intro h
      rcases hs h with hcon | hcon
      · rw [hcon] at hl
        rw [h1] at hl
        exact Option.noConfusion hl
      · rw [hcon] at hl
        rw [h2] at hl
        exact Option.noConfusion hl
    have hnm_s : nm ≠ s := by
      intro hcon
      apply hts
      rw [← hcon]
      exact hnm
    have hslash_s : (nm ++ "/") ≠ s := by
      intro hcon
      apply hts
      rw [← hcon]
      exact trimSlash_append_slash nm hnm
    have hnm_t : nm ≠ trimSlashStr s := fun hcon => hts hcon.symm
    have hslash_t : (nm ++ "/") ≠ trimSlashStr s :=
      fun hcon => trimSlash_ne_append_slash s nm hcon.symm
    unfold allocCountFor at h3 ⊢
    dsimp only
    by_cases hss : trimSlashStr s ≠ s
    · rw [if_pos hss]
      refine ⟨?_, ?_, ?_⟩
      · rw [lookup_cons_ne _ _ _ _ hnm_t, lookup_cons_ne _ _ _ _ hnm_s]
        exact h1
      · rw [lookup_cons_ne _ _ _ _ hslash_t, lookup_cons_ne _ _ _ _ hslash_s]
        exact h2
      · rw [List.countP_append, h3]
        simp [hts]
    · rw [if_neg hss]
      refine ⟨?_, ?_, ?_⟩
      · rw [lookup_cons_ne _ _ _ _ hnm_s]
        exact h1
      · rw [lookup_cons_ne _ _ _ _ hslash_s]
        exact h2
      · rw [List.countP_append, h3]
        simp [hts]

/-- Creating the slashed form first registers one node under both keys. -/
theorem findOrCreate_createSlashed (nm : String) (hnm : trimSlashStr nm = nm)
    (st : BuildState) (h2 : st.fm.lookup (nm ++ "/") = none)
    (h3 : allocCountFor st nm = 0) :
    (findOrCreate st (nm ++ "/")).2.fm.lookup nm = some st.nextId ∧
    (findOrCreate st (nm ++ "/")).2.fm.lookup (nm ++ "/") = some st.nextId ∧
    allocCountFor (findOrCreate st (nm ++ "/")).2 nm = 1 := by
  have hstr : trimSlashStr (nm ++ "/") = nm := trimSlash_append_slash nm hnm
  have hne : trimSlashStr (nm ++ "/") ≠ (nm ++ "/") := by
    rw [hstr]; exact ne_append_slash nm
  unfold findOrCreate
  rw [h2]
  unfold allocCountFor at h3 ⊢
  dsimp only
  rw [if_pos hne]
  refine ⟨?_, ?_, ?_⟩
  · rw [hstr, lookup_cons_self]
  · rw [lookup_cons_ne _ _ _ _ (by rw [hstr]; exact (ne_append_slash nm).symm),
      lookup_cons_self]
  · rw [List.countP_append, h3]
    simp [hstr]

theorem applyCalls_preserveA (nm : String) (hnm : trimSlashStr nm = nm) :
    ∀ (calls : List String) (st : BuildState),
      (∀ s ∈ calls, trimSlashStr s ≠ nm) →
      st.fm.lookup nm = none → st.fm.lookup (nm ++ "/") = none →
      allocCountFor st nm = 0 →
      ((applyCalls st calls).fm.lookup nm = none ∧
       (applyCalls st calls).fm.lookup (nm ++ "/") = none ∧
       allocCountFor (applyCalls st calls) nm = 0) := by
  intro calls
  induction calls with
  | nil => intro st _ h1 h2 h3; exact ⟨h1, h2, h3⟩
  | cons c cs ih =>
    intro st hc h1 h2 h3
    have hstep := findOrCreate_preserveA nm hnm st c
      (hc c (List.mem_cons_self _ _)) h1 h2 h3
    exact ih _ (fun s hs => hc s (List.mem_cons_of_mem _ hs))
      hstep.1 hstep.2.1 hstep.2.2

theorem applyCalls_preserveB (nm : String) (hnm : trimSlashStr nm = nm) :
    ∀ (calls : List String) (st : BuildState),
      (∀ s ∈ calls, trimSlashStr s = nm → s = nm ∨ s = nm ++ "/") →
      ∀ id0, st.fm.lookup nm = some id0 →
      st.fm.lookup (nm ++ "/") = some id0 →
      allocCountFor st nm = 1 →
      ((applyCalls st calls).fm.lookup nm = some id0 ∧
       (applyCalls st calls).fm.lookup (nm ++ "/") = some id0 ∧
       allocCountFor (applyCalls st calls) nm = 1) := by
  intro calls
  induction calls with
  | nil => intro st _ id0 h1 h2 h3; exact ⟨h1, h2, h3⟩
  | cons c cs ih =>
    intro st hc id0 h1 h2 h3
    have hstep := findOrCreate_preserveB nm hnm st c
      (hc c (List.mem_cons_self _ _)) id0 h1 h2 h3
    exact ih _ (fun s hs => hc s (List.mem_cons_of_mem _ hs)) id0
      hstep.1 hstep.2.1 hstep.2.2

/-- C8 (amended): for an entry list in which every processed name
(entry names and their computed parent-directory names) that strips to
`nm` is exactly `nm` or `nm ++ "/"`, and in which the slashed form is
processed before any occurrence of the bare form, the index build
resolves the two forms to a single node: both map keys reference the
same node id and exactly one node is ever allocated for that name.
(The counterexample shows the original "in any order, no duplicate
node" fails when the bare form precedes the slashed one.) -/
theorem build_same_node_amended (entries : List String) (nm : String)
    (pre post : List String) (hnm : trimSlashStr nm = nm)
    (hsplit : buildCalls entries = pre ++ (nm ++ "/") :: post)
    (hpre : ∀ s ∈ pre, s ≠ nm ∧ s ≠ nm ++ "/")
    (hall : ∀ s ∈ buildCalls entries, trimSlashStr s = nm →
      s = nm ∨ s = nm ++ "/") :
    ∃ id, (buildIndex entries).fm.lookup nm = some id ∧
          (buildIndex entries).fm.lookup (nm ++ "/") = some id ∧
          allocCountFor (buildIndex entries) nm = 1 := by
  obtain ⟨hn, hd, hf⟩ := build_core entries initBuild initBuild rfl rfl rfl
  have hdec : applyCalls initBuild (pre ++ (nm ++ "/") :: post) =
      applyCalls (findOrCreate (applyCalls initBuild pre) (nm ++ "/")).2
        post := by
    unfold applyCalls
    rw [List.foldl_append, List.foldl_cons]
  have hpre' : ∀ s ∈ pre, trimSlashStr s ≠ nm := by
    intro s hs h
    rcases hall s (by rw [hsplit]; exact List.mem_append_left _ hs) h with
      hcon | hcon
    · exact (hpre s hs).1 hcon
    · exact (hpre s hs).2 hcon
  obtain ⟨a1, a2, a3⟩ :=
    applyCalls_preserveA nm hnm pre initBuild hpre' rfl rfl rfl
  obtain ⟨b1, b2, b3⟩ :=
    findOrCreate_createSlashed nm hnm (applyCalls initBuild pre) a2 a3
  have hpost : ∀ s ∈ post, trimSlashStr s = nm → s = nm ∨ s = nm ++ "/" := by
    intro s hs h
    exact hall s
      (by rw [hsplit]
          exact List.mem_append_right _ (List.mem_cons_of_mem _ hs)) h
  obtain ⟨c1, c2, c3⟩ := applyCalls_preserveB nm hnm post _ hpost
    (applyCalls initBuild pre).nextId b1 b2 b3
  refine ⟨(applyCalls initBuild pre).nextId, ?_, ?_, ?_⟩
  · show (buildIndex entries).fm.lookup nm = _
    unfold buildIndex
    rw [hf, hsplit, hdec]
    exact c1
  · unfold buildIndex
    rw [hf, hsplit, hdec]
    exact c2
  · unfold buildIndex allocCountFor
    rw [hd, hsplit, hdec]
    unfold allocCountFor at c3
    exact c3

/-- C8 witness: entries `["dir/", "dir"]` — the slashed form first —
give a single node (id 0) referenced by both `dir` and `dir/`. -/
theorem build_same_node_amended_witness :
    (buildCalls ["dir/", "dir"] = [] ++ ("dir" ++ "/") :: ["/", "dir", "/"]) ∧
    (∀ s ∈ buildCalls ["dir/", "dir"], trimSlashStr s = "dir" →
      s = "dir" ∨ s = "dir" ++ "/") ∧
    ∃ id, (buildIndex ["dir/", "dir"]).fm.lookup "dir" = some id ∧
          (buildIndex ["dir/", "dir"]).fm.lookup ("dir" ++ "/") = some id ∧
          allocCountFor (buildIndex ["dir/", "dir"]) "dir" = 1 :=
  ⟨by decide, by decide,
   build_same_node_amended ["dir/", "dir"] "dir" [] ["/", "dir", "/"]
     (by decide) (by decide) (by decide) (by decide)⟩

end Zipfs
